import Mathlib

/-!
Verification of the Monome Grid serial logger (`cli/monome_logger.py`).

The two pure core functions, `format_bytes` and `decode_monome_message`,
are embedded shallowly: a byte is a `Fin 256`, a frame (one read chunk)
is a `List (Fin 256)`, and Python strings are Lean `String`s.  The
stateful session loop's per-chunk rendering decision (interpret mode) is
embedded as a pure function of the chunk.
-/

namespace MonomeLogger

/-- A byte as delivered by the serial transport. -/
abbrev Byte := Fin 256

/-- Lowercase hex digit for a nibble, as produced by `binascii.hexlify`
(`0`-`9` then `a`-`f`). -/
def hexDigitLower (n : Nat) : Char :=
  if n < 10 then Char.ofNat (48 + n) else Char.ofNat (87 + n)

/-- Uppercase hex digit for a nibble, as produced by the two-digit
uppercase hex format
(`0`-`9` then `A`-`F`). -/
def hexDigitUpper (n : Nat) : Char :=
  if n < 10 then Char.ofNat (48 + n) else Char.ofNat (55 + n)

/-- The two lowercase hex digits of one byte. -/
def byteHexLower (b : Byte) : String :=
  String.mk [hexDigitLower (b.val / 16), hexDigitLower (b.val % 16)]

/-- One byte rendered by the two-digit uppercase hex format of the
Python f-string: two uppercase hex digits. -/
def byteHexUpper (b : Byte) : String :=
  String.mk [hexDigitUpper (b.val / 16), hexDigitUpper (b.val % 16)]

/-- Embedding of `binascii.hexlify(data).decode('ascii')` as a character list: every
byte contributes its two lowercase hex digits, concatenated. -/
def hexlifyChars : List Byte → List Char
  | [] => []
  | b :: rest => hexDigitLower (b.val / 16) :: hexDigitLower (b.val % 16) :: hexlifyChars rest

/-- Embedding of `[hex_data[i:i+2] for i in range(0, len(hex_data), 2)]`: regroup a
character list into strings of two (a final odd character stands alone,
exactly as the Python slice would leave it). -/
def chunkPairs : List Char → List String
  | [] => []
  | [c] => [String.mk [c]]
  | c1 :: c2 :: rest => String.mk [c1, c2] :: chunkPairs rest

/-- Python's `" ".join`: interleave a single space between the parts. -/
def joinSpace : List String → String
  | [] => ""
  | [s] => s
  | s :: rest => s ++ " " ++ joinSpace rest

/-- The ASCII-shadow character of one byte: bytes in the printable range
`[0x20, 0x7E]` map to their character, all others to `'.'`
(the `if 32 <= b <= 126` branch of `format_bytes`). -/
def shadowChar (b : Byte) : Char :=
  if 32 ≤ b.val ∧ b.val ≤ 126 then Char.ofNat b.val else '.'

/-- Embedding of `format_bytes(data)`: the hex rendering (hexlify, regroup in pairs,
space-join) paired with the printable-ASCII shadow built by repeated
appending. -/
def format_bytes (data : List Byte) : String × String :=
  let hex_pairs := chunkPairs (hexlifyChars data)
  let readable := data.foldl (fun acc b => acc.push (shadowChar b)) ""
  (joinSpace hex_pairs, readable)

/-- Python's `str.split(" ")` on a character list: splitting the empty
string yields one empty token, and every separator occurrence opens a
new token. -/
def splitCharsOnSpace : List Char → List (List Char)
  | [] => [[]]
  | c :: rest =>
      match splitCharsOnSpace rest with
      | [] => [[c]]
      | p :: ps => if c = ' ' then [] :: p :: ps else (c :: p) :: ps

/-- Python's `s.split(" ")`. -/
def splitOnSpace (s : String) : List String :=
  (splitCharsOnSpace s.data).map String.mk

/-- The symbolic emphasis (ANSI color) tags used by the decoder. -/
inductive Color
  | green
  | yellow
  | blue
  | magenta
  | cyan
deriving DecidableEq, Repr

/-- The seven classification rules of `decode_monome_message`, in source
order: the four key-event rules (both dialects), the system-query
response, the device-ID response, and the grid-size response. -/
inductive Rule
  | keyUpA
  | keyDownA
  | keyUpB
  | keyDownB
  | sysQuery
  | deviceId
  | gridSize
deriving DecidableEq, Repr

/-- The `result` dictionary built by `decode_monome_message`: `raw_hex`
and `type` are always present, `decoded` defaults to `"Unknown"`, and
`color` is present exactly when a rule matched. -/
structure DecodedMessage where
  raw_hex : String
  type : String
  decoded : String
  color : Option Color
deriving DecidableEq, Repr

/-- Embedding of `bytes(_).decode('ascii', errors='ignore')`: bytes `≥ 0x80` are
dropped, the rest become their ASCII characters. -/
def asciiIgnore (bs : List Byte) : List Char :=
  (bs.filter (fun b => b.val < 128)).map (fun b => Char.ofNat b.val)

/-- The ASCII characters Python's `str.strip()` removes: `\t`, `\n`,
vertical tab, form feed, `\r`, space, and the separator controls
`0x1C`-`0x1F`. -/
def pyIsSpace (c : Char) : Bool :=
  (9 ≤ c.toNat ∧ c.toNat ≤ 13) ∨ (28 ≤ c.toNat ∧ c.toNat ≤ 32)

/-- Python's `str.strip()`: remove leading and trailing whitespace. -/
def pyStrip (cs : List Char) : List Char :=
  ((cs.dropWhile pyIsSpace).reverse.dropWhile pyIsSpace).reverse

/-- Embedding of `bytes(data[1:]).decode('ascii', errors='ignore').strip()` from the
device-ID branch. -/
def deviceIdString (data : List Byte) : String :=
  String.mk (pyStrip (asciiIgnore (data.drop 1)))

/-- The description each rule writes into `result["decoded"]`, with the
decimal field renderings of the Python f-strings. -/
def ruleText (r : Rule) (data : List Byte) : String :=
  let x := toString (data.getD 1 0).val
  let y := toString (data.getD 2 0).val
  match r with
  | .keyUpA => "Key UP at (" ++ x ++ ", " ++ y ++ ")"
  | .keyDownA => "Key DOWN at (" ++ x ++ ", " ++ y ++ ")"
  | .keyUpB => "Key UP at (" ++ x ++ ", " ++ y ++ ") [Alt code]"
  | .keyDownB => "Key DOWN at (" ++ x ++ ", " ++ y ++ ") [Alt code]"
  | .sysQuery => "System Query Response: Section " ++ x ++ ", Count " ++ y
  | .deviceId => "Device ID: " ++ deviceIdString data
  | .gridSize => "Grid Size: " ++ x ++ "x" ++ y

/-- The emphasis tag each rule writes into `result["color"]`. -/
def ruleColor : Rule → Color
  | .keyUpA => .cyan
  | .keyDownA => .magenta
  | .keyUpB => .cyan
  | .keyDownB => .magenta
  | .sysQuery => .blue
  | .deviceId => .green
  | .gridSize => .yellow

/-- The `if/elif` chain of `decode_monome_message`, first match wins:
which rule (if any) fires on a given frame. -/
def matchedRule (data : List Byte) : Option Rule :=
  let message_type := data.headD 0
  if message_type = 0x00 ∧ 3 ≤ data.length then some .keyUpA
  else if message_type = 0x01 ∧ 3 ≤ data.length then some .keyDownA
  else if message_type = 0x20 ∧ 3 ≤ data.length then some .keyUpB
  else if message_type = 0x21 ∧ 3 ≤ data.length then some .keyDownB
  else if message_type = 0x00 ∧ 3 ≤ data.length ∧ (data.getD 1 0).val ≤ 15 then some .sysQuery
  else if message_type = 0x01 ∧ 1 < data.length then some .deviceId
  else if message_type = 0x03 ∧ 3 ≤ data.length then some .gridSize
  else none

/-- Embedding of the `raw_hex` construction: space-join of the uppercase octets. -/
def rawHexUpper (data : List Byte) : String :=
  joinSpace (data.map byteHexUpper)

/-- Embedding of `decode_monome_message(data)`: `None` on an empty frame, otherwise
the result dictionary with `raw_hex` and `type` always filled in and
`decoded`/`color` set by the first matching rule of the chain. -/
def decode_monome_message (data : List Byte) : Option DecodedMessage :=
  if data.length < 1 then none
  else
    let message_type := data.headD 0
    some
      { raw_hex := rawHexUpper data
        type := "0x" ++ byteHexUpper message_type
        decoded :=
          match matchedRule data with
          | some r => ruleText r data
          | none => "Unknown"
        color := (matchedRule data).map ruleColor }

/-- The `RESET` ANSI code. -/
def RESET : String := "\x1B[0m"

/-- The ANSI code of each symbolic color constant. -/
def colorCode : Color → String
  | .green => "\x1B[32m"
  | .yellow => "\x1B[33m"
  | .blue => "\x1B[34m"
  | .magenta => "\x1B[35m"
  | .cyan => "\x1B[36m"

/-- Embedding of `message.get("color", RESET)` from the interpret-mode branch. -/
def colorOrReset : Option Color → String
  | some c => colorCode c
  | none => RESET

/-- Which branch the interpret-mode rendering takes for one chunk:
`decoded` when `decode_monome_message` returned a (truthy, always
non-empty) dictionary, `rawFallback` when it returned `None`. -/
inductive InterpretBranch
  | decoded
  | rawFallback
deriving DecidableEq, Repr

/-- The `if message:` test of the interpret-mode branch of the read
loop (a returned dictionary always has at least three keys, so it is
truthy exactly when it is not `None`). -/
def interpretBranch (data : List Byte) : InterpretBranch :=
  match decode_monome_message data with
  | some _ => .decoded
  | none => .rawFallback

/-- The `output` line the interpret-mode branch builds for one chunk
with timestamp `ts`: the decoded rendering when a message results, the
`"Raw data: "` hex fallback otherwise. -/
def renderInterpret (ts : String) (data : List Byte) : String :=
  match decode_monome_message data with
  | some message =>
      "[" ++ ts ++ "] " ++ colorOrReset message.color ++ message.decoded
        ++ RESET ++ " [" ++ message.raw_hex ++ "]"
  | none => "[" ++ ts ++ "] Raw data: " ++ (format_bytes data).1

/-- Whether the first list is an initial run of the second. -/
def beginsWith : List Char → List Char → Bool
  | [], _ => true
  | _ :: _, [] => false
  | p :: ps, c :: cs => p = c && beginsWith ps cs

/-- A character of an uppercase hex octet: a decimal digit or `A`-`F`. -/
abbrev IsUpperHexDigit (c : Char) : Prop :=
  ('0' ≤ c ∧ c ≤ '9') ∨ ('A' ≤ c ∧ c ≤ 'F')

/-- A character of a lowercase hex octet: a decimal digit or `a`-`f`. -/
abbrev IsLowerHexDigit (c : Char) : Prop :=
  ('0' ≤ c ∧ c ≤ '9') ∨ ('a' ≤ c ∧ c ≤ 'f')

/-! ### Helper lemmas -/

theorem decode_eq_of_ne_nil (data : List Byte) (h : data ≠ []) :
    decode_monome_message data = some
      { raw_hex := rawHexUpper data
        type := "0x" ++ byteHexUpper (data.headD 0)
        decoded :=
          match matchedRule data with
          | some r => ruleText r data
          | none => "Unknown"
        color := (matchedRule data).map ruleColor } := by
  have hl : ¬ data.length < 1 := by
    simpa [Nat.lt_one_iff, List.length_eq_zero] using h
  simp [decode_monome_message, hl]

theorem matchedRule_keyUpA (data : List Byte) (h0 : data.headD 0 = 0x00)
    (h3 : 3 ≤ data.length) : matchedRule data = some .keyUpA := by
  simp only [matchedRule]
  rw [h0]
  simp [h3]

theorem matchedRule_gridSize (data : List Byte) (h0 : data.headD 0 = 0x03)
    (h3 : 3 ≤ data.length) : matchedRule data = some .gridSize := by
  simp only [matchedRule]
  rw [h0]
  simp [h3]

theorem matchedRule_deviceId_len2 (data : List Byte) (h0 : data.headD 0 = 0x01)
    (h2 : data.length = 2) : matchedRule data = some .deviceId := by
  simp only [matchedRule]
  rw [h0, h2]
  simp

theorem matchedRule_ne_sysQuery (data : List Byte) :
    matchedRule data ≠ some .sysQuery := by
  intro h
  simp only [matchedRule] at h
  split_ifs at h with h1 h2 h3 h4 h5 <;> simp_all

/-! ### Claims -/

/-- C3: `decode_monome_message` returns `None` exactly on the empty
frame; on every other frame it returns a structured result.  The
embedding is a total Lean function, so totality over all byte sequences
is inherent. -/
theorem decode_none_iff_empty (data : List Byte) :
    decode_monome_message data = none ↔ data = [] := by
  rcases data with _ | ⟨b, rest⟩
  · simp [decode_monome_message]
  · simp [decode_monome_message]

/-- C1: any frame of length ≥ 3 whose first byte is `0x00` decodes to
`"Key UP at (x, y)"` with `x = byte[1]` and `y = byte[2]`; and the
System-Query-Response rule (rule 5) never fires on any input, because
rule 1 is evaluated first and subsumes its condition. -/
theorem keyUp_wins_sysQuery_dead :
    (∀ data : List Byte, data.headD 0 = 0x00 → 3 ≤ data.length →
      ∃ m, decode_monome_message data = some m ∧
        m.decoded = "Key UP at (" ++ toString (data.getD 1 0).val ++ ", "
          ++ toString (data.getD 2 0).val ++ ")")
    ∧ (∀ data : List Byte, matchedRule data ≠ some .sysQuery) := by
  constructor
  · intro data h0 h3
    have hne : data ≠ [] := by
      intro h; rw [h] at h3; simp at h3
    refine ⟨_, decode_eq_of_ne_nil data hne, ?_⟩
    simp [matchedRule_keyUpA data h0 h3, ruleText]
  · exact matchedRule_ne_sysQuery

/-- Witness for C1 at the spec's own example frame `[0x00, 5, 2]`. -/
theorem keyUp_wins_sysQuery_dead_witness :
    ∃ m, decode_monome_message [0x00, 5, 2] = some m ∧
      m.decoded = "Key UP at (5, 2)" := by
  obtain ⟨m, hm, hd⟩ :=
    keyUp_wins_sysQuery_dead.1 [0x00, 5, 2] (by decide) (by decide)
  exact ⟨m, hm, by rw [hd]; decide⟩

/-- C8: any frame of length ≥ 3 whose first byte is `0x03` decodes to
`"Grid Size: wxh"` with `w = byte[1]` and `h = byte[2]`. -/
theorem gridSize_rule (data : List Byte) (h0 : data.headD 0 = 0x03)
    (h3 : 3 ≤ data.length) :
    ∃ m, decode_monome_message data = some m ∧
      m.decoded = "Grid Size: " ++ toString (data.getD 1 0).val ++ "x"
        ++ toString (data.getD 2 0).val := by
  have hne : data ≠ [] := by
    intro h; rw [h] at h3; simp at h3
  refine ⟨_, decode_eq_of_ne_nil data hne, ?_⟩
  simp [matchedRule_gridSize data h0 h3, ruleText]

/-- Witness for C8 at the spec's own example frame `[0x03, 16, 8]`. -/
theorem gridSize_rule_witness :
    ∃ m, decode_monome_message [0x03, 16, 8] = some m ∧
      m.decoded = "Grid Size: 16x8" := by
  obtain ⟨m, hm, hd⟩ := gridSize_rule [0x03, 16, 8] (by decide) (by decide)
  exact ⟨m, hm, by rw [hd]; decide⟩

/-- C9: a frame of length exactly 2 whose first byte is `0x01` is
classified by the device-ID rule (rule 6): rule 2 demands length ≥ 3 but
rule 6 only length > 1, so rule 6 is reachable at the public
interface.  The identifier is the ASCII decode of `byte[1]` with
non-ASCII bytes dropped and surrounding whitespace stripped. -/
theorem deviceId_rule_reachable (data : List Byte) (h0 : data.headD 0 = 0x01)
    (h2 : data.length = 2) :
    ∃ m, decode_monome_message data = some m ∧
      m.decoded = "Device ID: " ++ String.mk (pyStrip (asciiIgnore (data.drop 1)))
      ∧ m.color = some Color.green := by
  have hne : data ≠ [] := by
    intro h; rw [h] at h2; simp at h2
  refine ⟨_, decode_eq_of_ne_nil data hne, ?_⟩
  simp [matchedRule_deviceId_len2 data h0 h2, ruleText, deviceIdString, ruleColor]

/-- Witness for C9 at the frame `[0x01, 0x41]`. -/
theorem deviceId_rule_reachable_witness :
    ∃ m, decode_monome_message [0x01, 0x41] = some m ∧
      m.decoded = "Device ID: A" ∧ m.color = some Color.green := by
  obtain ⟨m, hm, hd, hc⟩ := deviceId_rule_reachable [0x01, 0x41] (by decide) (by decide)
  exact ⟨m, hm, by rw [hd]; decide, hc⟩

/-- C4: a non-empty frame on which none of the seven ordered rule
conditions holds decodes to the result with `decoded = "Unknown"` and no
emphasis tag; the absence of a match is an ordinary return value, never
a fault. -/
theorem unmatched_unknown_no_emphasis (data : List Byte) (hne : data ≠ [])
    (h1 : ¬(data.headD 0 = 0x00 ∧ 3 ≤ data.length))
    (h2 : ¬(data.headD 0 = 0x01 ∧ 3 ≤ data.length))
    (h3 : ¬(data.headD 0 = 0x20 ∧ 3 ≤ data.length))
    (h4 : ¬(data.headD 0 = 0x21 ∧ 3 ≤ data.length))
    (h5 : ¬(data.headD 0 = 0x00 ∧ 3 ≤ data.length ∧ (data.getD 1 0).val ≤ 15))
    (h6 : ¬(data.headD 0 = 0x01 ∧ 1 < data.length))
    (h7 : ¬(data.headD 0 = 0x03 ∧ 3 ≤ data.length)) :
    ∃ m, decode_monome_message data = some m ∧
      m.decoded = "Unknown" ∧ m.color = none := by
  have hmatch : matchedRule data = none := by
    simp only [matchedRule]
    split_ifs <;> simp_all
  refine ⟨_, decode_eq_of_ne_nil data hne, ?_⟩
  simp [hmatch]

/-- Witness for C4 at the frame `[0x05]`. -/
theorem unmatched_unknown_no_emphasis_witness :
    ∃ m, decode_monome_message [0x05] = some m ∧
      m.decoded = "Unknown" ∧ m.color = none :=
  unmatched_unknown_no_emphasis [0x05] (by decide) (by decide) (by decide)
    (by decide) (by decide) (by decide) (by decide) (by decide)

set_option maxRecDepth 8192 in
/-- C5: on every non-empty frame, the result's `raw_hex` is the bytes
space-joined in input order, each as one two-character uppercase hex
octet, and its `type` is the first byte as `0xHH` — whether or not any
classification rule matched. -/
theorem raw_hex_and_opcode_always (data : List Byte) (hne : data ≠ []) :
    ∃ m, decode_monome_message data = some m ∧
      m.raw_hex = joinSpace (data.map byteHexUpper) ∧
      m.type = "0x" ++ byteHexUpper (data.headD 0) ∧
      ∀ b : Byte, (byteHexUpper b).data.length = 2 ∧
        ∀ c ∈ (byteHexUpper b).data, IsUpperHexDigit c := by
  refine ⟨_, decode_eq_of_ne_nil data hne, rfl, rfl, by decide⟩

/-- Witness for C5 at the unclassifiable frame `[0xAB, 0x00]`. -/
theorem raw_hex_and_opcode_always_witness :
    ∃ m, decode_monome_message [0xAB, 0x00] = some m ∧
      m.raw_hex = "AB 00" ∧ m.type = "0xAB" := by
  obtain ⟨m, hm, hr, ht, -⟩ := raw_hex_and_opcode_always [0xAB, 0x00] (by decide)
  exact ⟨m, hm, by rw [hr]; decide, by rw [ht]; decide⟩

theorem chunkPairs_hexlifyChars (data : List Byte) :
    chunkPairs (hexlifyChars data) = data.map byteHexLower := by
  induction data with
  | nil => rfl
  | cons b rest ih => simp [hexlifyChars, chunkPairs, byteHexLower, ih]

/-- Counterexample to C2 as stated: `format_bytes` renders the byte
`0xAB` as the lowercase octet `"ab"` (`binascii.hexlify` output), not
the uppercase `"AB"` the claim demands. -/
theorem hex_string_uppercase_counterexample :
    (format_bytes [0xAB]).1 = "ab" ∧ (format_bytes [0xAB]).1 ≠ "AB" := by decide

set_option maxRecDepth 8192 in
/-- C2 amended: the hex_string component of `format_bytes` renders each
input byte as one two-character octet of lowercase hex digits, octets
separated by a single space in input order; empty input yields the
empty string. -/
theorem hex_string_lowercase_octets :
    (∀ data : List Byte, (format_bytes data).1 = joinSpace (data.map byteHexLower))
    ∧ (∀ b : Byte, (byteHexLower b).data.length = 2 ∧
        ∀ c ∈ (byteHexLower b).data, IsLowerHexDigit c)
    ∧ (format_bytes ([] : List Byte)).1 = "" := by
  refine ⟨?_, by decide, by decide⟩
  intro data
  simp [format_bytes, chunkPairs_hexlifyChars]

theorem foldl_push_data (data : List Byte) (s : String) :
    (data.foldl (fun acc b => acc.push (shadowChar b)) s).data
      = s.data ++ data.map shadowChar := by
  induction data generalizing s with
  | nil => simp
  | cons b rest ih => simp [ih, String.data_push]

/-- C6: the ascii_shadow component of `format_bytes` has the same
length as the input, and character `i` is the ASCII character of byte
`i` when that byte lies in the printable range `[0x20, 0x7E]`, and the
placeholder `'.'` otherwise. -/
theorem ascii_shadow_spec (data : List Byte) :
    (format_bytes data).2.data
        = data.map (fun b => if 32 ≤ b.val ∧ b.val ≤ 126 then Char.ofNat b.val else '.')
      ∧ (format_bytes data).2.length = data.length := by
  have h : (format_bytes data).2.data = data.map shadowChar := by
    simpa [format_bytes] using foldl_push_data data ""
  constructor
  · simpa [shadowChar] using h
  · have hlen : (format_bytes data).2.length = (format_bytes data).2.data.length := rfl
    rw [hlen, h, List.length_map]

theorem splitCharsOnSpace_ne_nil (cs : List Char) : splitCharsOnSpace cs ≠ [] := by
  induction cs with
  | nil => simp [splitCharsOnSpace]
  | cons c rest ih =>
      rcases h : splitCharsOnSpace rest with _ | ⟨p, ps⟩
      · simp [splitCharsOnSpace, h]
      · simp only [splitCharsOnSpace, h]
        split_ifs <;> simp

theorem splitCharsOnSpace_no_space (p : List Char) (hp : ∀ c ∈ p, c ≠ ' ') :
    splitCharsOnSpace p = [p] := by
  induction p with
  | nil => rfl
  | cons c rest ih =>
      have hc : c ≠ ' ' := hp c (List.mem_cons_self c rest)
      have hr : splitCharsOnSpace rest = [rest] :=
        ih (fun d hd => hp d (List.mem_cons_of_mem c hd))
      simp [splitCharsOnSpace, hr, hc]

theorem splitCharsOnSpace_append_space (p t : List Char) (hp : ∀ c ∈ p, c ≠ ' ') :
    splitCharsOnSpace (p ++ ' ' :: t) = p :: splitCharsOnSpace t := by
  induction p with
  | nil =>
      rcases h : splitCharsOnSpace t with _ | ⟨q, qs⟩
      · exact absurd h (splitCharsOnSpace_ne_nil t)
      · simp [splitCharsOnSpace, h]
  | cons c rest ih =>
      have hc : c ≠ ' ' := hp c (List.mem_cons_self c rest)
      have hr := ih (fun d hd => hp d (List.mem_cons_of_mem c hd))
      simp [splitCharsOnSpace, hr, hc]

theorem mk_data (s : String) : String.mk s.data = s := rfl

theorem splitOnSpace_joinSpace (parts : List String)
    (hp : ∀ s ∈ parts, ∀ c ∈ s.data, c ≠ ' ') (hne : parts ≠ []) :
    splitOnSpace (joinSpace parts) = parts := by
  induction parts with
  | nil => cases hne rfl
  | cons s rest ih =>
      rcases rest with _ | ⟨s2, rest2⟩
      · simp only [joinSpace, splitOnSpace]
        rw [splitCharsOnSpace_no_space s.data (hp s (List.mem_cons_self s []))]
        simp [mk_data]
      · have hdata : (s ++ " " ++ joinSpace (s2 :: rest2)).data
            = s.data ++ ' ' :: (joinSpace (s2 :: rest2)).data := by
          simp [String.data_append]
        have hr := ih (fun u hu => hp u (List.mem_cons_of_mem s hu)) (by simp)
        simp only [joinSpace, splitOnSpace] at hr ⊢
        rw [hdata, splitCharsOnSpace_append_space s.data _ (hp s (List.mem_cons_self s _))]
        rw [List.map_cons, mk_data, hr]

/-- Counterexample to C7 as stated: on the empty byte sequence the hex
string is empty, and splitting the empty string on the space separator
yields one (empty) token, not zero. -/
theorem hex_split_empty_counterexample :
    splitOnSpace (format_bytes ([] : List Byte)).1 = [""]
    ∧ (splitOnSpace (format_bytes ([] : List Byte)).1).length
        ≠ ([] : List Byte).length := by decide

set_option maxRecDepth 8192 in
/-- C7 amended: for every non-empty byte sequence, splitting the
hex_string component of `format_bytes` on the space separator yields
exactly as many octets as there are input bytes. -/
theorem hex_split_length (data : List Byte) (hne : data ≠ []) :
    (splitOnSpace (format_bytes data).1).length = data.length := by
  have h1 : (format_bytes data).1 = joinSpace (data.map byteHexLower) := by
    simp [format_bytes, chunkPairs_hexlifyChars]
  have hall : ∀ b : Byte, ∀ c ∈ (byteHexLower b).data, c ≠ ' ' := by decide
  have hnospace : ∀ s ∈ data.map byteHexLower, ∀ c ∈ s.data, c ≠ ' ' := by
    intro s hs c hc
    obtain ⟨b, -, rfl⟩ := List.mem_map.mp hs
    exact hall b c hc
  rw [h1, splitOnSpace_joinSpace _ hnospace (by simpa using hne), List.length_map]

/-- Witness for C7 at the frame `[0xAB, 0x00]`. -/
theorem hex_split_length_witness :
    (splitOnSpace (format_bytes [0xAB, 0x00]).1).length = 2 := by
  simpa using hex_split_length [0xAB, 0x00] (by decide)

theorem beginsWith_append_same (q r u : List Char) :
    beginsWith (q ++ r) (q ++ u) = beginsWith r u := by
  induction q with
  | nil => rfl
  | cons c cs ih => simp [beginsWith, ih]

theorem beginsWith_head_ne (a b : Char) (r u : List Char) (h : a ≠ b) :
    beginsWith (a :: r) (b :: u) = false := by
  simp [beginsWith, h]

theorem beginsWith_cons_same (c : Char) (r u : List Char) :
    beginsWith (c :: r) (c :: u) = beginsWith r u := by
  simp [beginsWith]

theorem colorOrReset_head (co : Option Color) :
    ∃ t, (colorOrReset co).data = '\x1B' :: t := by
  rcases co with _ | c
  · exact ⟨"[0m".data, by decide⟩
  · rcases c
    · exact ⟨"[32m".data, by decide⟩
    · exact ⟨"[33m".data, by decide⟩
    · exact ⟨"[34m".data, by decide⟩
    · exact ⟨"[35m".data, by decide⟩
    · exact ⟨"[36m".data, by decide⟩

/-- C10: in interpret display mode, every non-empty chunk decodes to a
(truthy) result, so the read loop takes the decoded branch and the
hex-only fallback is unreachable: no rendered line begins with the
timestamp followed by `"Raw data: "`. -/
theorem interpret_mode_no_raw_fallback (ts : String) (data : List Byte)
    (hne : data ≠ []) :
    interpretBranch data = .decoded ∧
      beginsWith ("[" ++ ts ++ "] Raw data: ").data (renderInterpret ts data).data
        = false := by
  have hm := decode_eq_of_ne_nil data hne
  constructor
  · simp [interpretBranch, hm]
  · simp only [renderInterpret, hm]
    obtain ⟨t, ht⟩ := colorOrReset_head ((matchedRule data).map ruleColor)
    simp only [String.data_append, List.append_assoc]
    rw [show ([']', ' ', 'R', 'a', 'w', ' ', 'd', 'a', 't', 'a', ':', ' '] : List Char)
        = [']', ' '] ++ 'R' :: ['a', 'w', ' ', 'd', 'a', 't', 'a', ':', ' '] from rfl]
    rw [ht]
    simp only [List.cons_append, List.append_assoc, List.nil_append]
    rw [beginsWith_cons_same, beginsWith_append_same, beginsWith_cons_same,
      beginsWith_cons_same]
    exact beginsWith_head_ne 'R' '\x1B' _ _ (by decide)

/-- Witness for C10 at timestamp `"12:00:00.000"` and frame `[0xFF]`. -/
theorem interpret_mode_no_raw_fallback_witness :
    interpretBranch [0xFF] = .decoded ∧
      beginsWith ("[" ++ "12:00:00.000" ++ "] Raw data: ").data
        (renderInterpret "12:00:00.000" [0xFF]).data = false :=
  interpret_mode_no_raw_fallback "12:00:00.000" [0xFF] (by decide)

end MonomeLogger
